import Mathlib

/-!
Verification of the decomposition-search core of the Visual Pumping Lemma
demonstrator.  Strings are modelled as `List Char`; pattern identifiers,
language-type labels and formatted messages are Lean `String`s.  The
definitions below are a shallow embedding of `src/utils.py`
(`is_string_in_language`) and `src/pumping_engine.py`
(`apply_regular_pumping_lemma`, `apply_cfl_pumping_lemma`,
`_generate_regular_decompositions`, `_generate_cfl_decompositions`).
-/

namespace VisualPumping

/-! ## Membership oracle (src/utils.py, `is_string_in_language`) -/

/-- Python `'ba' in s`: the two-character substring "ba" occurs in `s`. -/
def hasBA : List Char → Bool
  | c1 :: c2 :: rest => (c1 == 'b' && c2 == 'a') || hasBA (c2 :: rest)
  | _ => false

/-- Python `re.fullmatch(r'a*b*', s)`: a (possibly empty) run of `'a'`s
followed by a (possibly empty) run of `'b'`s covering the whole string. -/
def matchAStarBStar (s : List Char) : Bool :=
  (s.dropWhile (· == 'a')).all (· == 'b')

/-- Python `re.fullmatch(r'(ab)*', s)`: a repetition of the literal block
"ab" covering the whole string. -/
def matchABStar : List Char → Bool
  | [] => true
  | 'a' :: 'b' :: rest => matchABStar rest
  | _ => false

/-- Python branch for pattern `"a^n b^n c^n"`: `re.match(r'^(a+)b+c+$', s)`
binds `n` to the (maximal) run of leading `'a'`s, then the code compares
`s == 'a'*n + 'b'*n + 'c'*n`.  Because the three character classes are
disjoint, the regex matches exactly when the string splits as a nonempty
`'a'` run, a nonempty `'b'` run and a nonempty `'c'` run with nothing left. -/
def anbncnCheck (s : List Char) : Bool :=
  let aRun := s.takeWhile (· == 'a')
  let r1 := s.dropWhile (· == 'a')
  let bRun := r1.takeWhile (· == 'b')
  let r2 := r1.dropWhile (· == 'b')
  let cRun := r2.takeWhile (· == 'c')
  let r3 := r2.dropWhile (· == 'c')
  if 1 ≤ aRun.length ∧ 1 ≤ bRun.length ∧ 1 ≤ cRun.length ∧ r3 = [] then
    s == List.replicate aRun.length 'a' ++ List.replicate aRun.length 'b' ++
      List.replicate aRun.length 'c'
  else false

/-- Python branch for pattern `"ww"`: even length and the first half equals
the second half. -/
def matchWW (s : List Char) : Bool :=
  if s.length % 2 = 0 then
    s.take (s.length / 2) == s.drop (s.length / 2)
  else false

/-- Python branch for pattern `"w w_reverse"`: even length and the first half
equals the reverse of the second half. -/
def matchWWreverse (s : List Char) : Bool :=
  if s.length % 2 = 0 then
    s.take (s.length / 2) == (s.drop (s.length / 2)).reverse
  else false

/-- Embedding of `is_string_in_language` from src/utils.py: the membership oracle,
an if-chain over the fixed pattern identifiers, returning `false` for any
unrecognized pattern. -/
def is_string_in_language (s : List Char) (language_pattern : String) : Bool :=
  if language_pattern == "a^n b^n" then
    let a_count := s.count 'a'
    let b_count := s.count 'b'
    s.head? == some 'a' && s.getLast? == some 'b' && a_count == b_count && !hasBA s
  else if language_pattern == "a^n b^m" then
    matchAStarBStar s
  else if language_pattern == "a*b*" then
    matchAStarBStar s
  else if language_pattern == "(ab)*" then
    matchABStar s
  else if language_pattern == "a^n b^n c^n" then
    anbncnCheck s
  else if language_pattern == "ww" then
    matchWW s
  else if language_pattern == "w w_reverse" then
    matchWWreverse s
  else if language_pattern == "(b*ab*ab*)*" then
    s.count 'a' % 2 == 0 && s.all (fun c => c == 'a' || c == 'b')
  else
    false

/-! ## Decomposition generators (src/pumping_engine.py) -/

/-- Python `lst * i`: `i` concatenated copies of `lst`. -/
def pyRepeat (l : List Char) (i : Nat) : List Char :=
  (List.replicate i l).flatten

/-- A regular decomposition record `{x, y, z, split_info}` as built by
`_generate_regular_decompositions`. -/
structure RegDecomp where
  x : List Char
  y : List Char
  z : List Char
  split_info : String
deriving DecidableEq, Repr

/-- Embedding of `_generate_regular_decompositions(s, p)`: all `(split_point, y_length)`
pairs with `1 ≤ split_point ≤ min(p, n)` and `1 ≤ y_length ≤ split_point`;
`x = s[:split_point-y_length]`, `y = s[split_point-y_length:split_point]`,
`z = s[split_point:]`, kept when `len(y) > 0` and `len(x+y) ≤ p`. -/
def _generate_regular_decompositions (s : List Char) (p : Nat) : List RegDecomp :=
  let n := s.length
  (List.range' 1 (min p n)).flatMap fun split_point =>
    (List.range' 1 split_point).filterMap fun y_length =>
      let x := s.take (split_point - y_length)
      let y := (s.take split_point).drop (split_point - y_length)
      let z := s.drop split_point
      if 0 < y.length ∧ (x ++ y).length ≤ p then
        some ⟨x, y, z,
          "|xy| = " ++ toString (x ++ y).length ++ ", |y| = " ++ toString y.length⟩
      else none

/-- A CFL decomposition record `{u, v, w, x, y, split_info}` as built by
`_generate_cfl_decompositions`. -/
structure CflDecomp where
  u : List Char
  v : List Char
  w : List Char
  x : List Char
  y : List Char
  split_info : String
deriving DecidableEq, Repr

/-- The full (pre-truncation) enumeration built by
`_generate_cfl_decompositions(s, p)`: ascending window start `vwx_start`,
ascending window end `vwx_end ≤ min(vwx_start + p, n)`, ascending `v_end`,
ascending `x_start`, filtered to `len(v+x) > 0`. -/
def cflFullDecompositions (s : List Char) (p : Nat) : List CflDecomp :=
  let n := s.length
  (List.range n).flatMap fun vwx_start =>
    (List.range' (vwx_start + 1) (min (vwx_start + p) n - vwx_start)).flatMap
      fun vwx_end =>
        let vwx := (s.take vwx_end).drop vwx_start
        (List.range' 1 (vwx.length - 1)).flatMap fun v_end =>
          (List.range' v_end (vwx.length - v_end)).filterMap fun x_start =>
            let v := vwx.take v_end
            let w := (vwx.take x_start).drop v_end
            let x := vwx.drop x_start
            if 0 < (v ++ x).length then
              some ⟨s.take vwx_start, v, w, x, s.drop vwx_end,
                "|vwx| = " ++ toString vwx.length ++ ", |vx| = " ++
                  toString (v ++ x).length⟩
            else none

/-- Embedding of `_generate_cfl_decompositions(s, p)`: the full enumeration truncated to
its first 10 elements (`decompositions[:10]`). -/
def _generate_cfl_decompositions (s : List Char) (p : Nat) : List CflDecomp :=
  (cflFullDecompositions s p).take 10

/-! ## Regular-path engine (`apply_regular_pumping_lemma`) -/

/-- One iteration record of the regular path: `{i, pumped_string,
in_language, parts: {x, y, z, y_repetitions}}`. -/
structure RegIteration where
  i : Nat
  pumped_string : List Char
  in_language : Bool
  x : List Char
  y : List Char
  z : List Char
  y_repetitions : Nat
deriving DecidableEq, Repr

/-- The result dictionary of `apply_regular_pumping_lemma`. -/
structure RegVerdict where
  string : List Char
  pumping_length : Nat
  decomposition : Option RegDecomp
  iterations : List RegIteration
  lemma_holds : Bool
  language_type : String
  error : Option String
deriving DecidableEq, Repr

/-- Pumped string `x + y*i + z`. -/
def regPumped (x y z : List Char) (i : Nat) : List Char :=
  x ++ pyRepeat y i ++ z

/-- The iteration records the regular engine builds for one candidate
decomposition: the fixed repetition counts `[0, 1, 2, 3, 5]`. -/
def regIterations (language_pattern : String) (x y z : List Char) :
    List RegIteration :=
  [0, 1, 2, 3, 5].map fun i =>
    let pumped_string := regPumped x y z i
    { i := i, pumped_string := pumped_string,
      in_language := is_string_in_language pumped_string language_pattern,
      x := x, y := y, z := z, y_repetitions := i }

/-- Flag `valid_for_all_i` for a regular candidate: every iteration record is a
member. -/
def regPass (language_pattern : String) (d : RegDecomp) : Bool :=
  (regIterations language_pattern d.x d.y d.z).all (·.in_language)

/-- The result dictionary as initialized at the top of
`apply_regular_pumping_lemma`. -/
def regBaseResult (s : List Char) (p : Nat) : RegVerdict :=
  { string := s, pumping_length := p, decomposition := none, iterations := [],
    lemma_holds := false, language_type := "Unknown", error := none }

/-- The result written when a regular candidate passes every repetition. -/
def regSuccessVerdict (language_pattern : String) (s : List Char) (p : Nat)
    (d : RegDecomp) : RegVerdict :=
  { regBaseResult s p with
    decomposition := some d,
    iterations := regIterations language_pattern d.x d.y d.z,
    lemma_holds := true, language_type := "Possibly Regular" }

/-- The fallback result memorized at the first failing regular candidate. -/
def regFailVerdict (language_pattern : String) (s : List Char) (p : Nat)
    (d : RegDecomp) : RegVerdict :=
  { regBaseResult s p with
    decomposition := some d,
    iterations := regIterations language_pattern d.x d.y d.z,
    lemma_holds := false, language_type := "Not Regular" }

/-- The `for decomp in decompositions` loop of `apply_regular_pumping_lemma`:
break on the first passing candidate, otherwise remember the first failing
candidate (the fallback is written only while `result["iterations"]` is
still empty). -/
def regSearch (language_pattern : String) (s : List Char) (p : Nat) :
    List RegDecomp → Option (RegDecomp × List RegIteration) → RegVerdict
  | [], none => regBaseResult s p
  | [], some (d, its) =>
    { regBaseResult s p with
      decomposition := some d, iterations := its,
      lemma_holds := false, language_type := "Not Regular" }
  | d :: rest, fallback =>
    let its := regIterations language_pattern d.x d.y d.z
    if its.all (·.in_language) then
      { regBaseResult s p with
      decomposition := some d, iterations := its,
        lemma_holds := true, language_type := "Possibly Regular" }
    else
      regSearch language_pattern s p rest (some (fallback.getD (d, its)))

/-- The error message formatted when the string is shorter than the pumping
length. -/
def lengthError (n p : Nat) : String :=
  "String length (" ++ toString n ++ ") is less than pumping length (" ++
    toString p ++ ")"

/-- Embedding of `apply_regular_pumping_lemma(language_pattern, input_string, p)` from
src/pumping_engine.py. -/
def apply_regular_pumping_lemma (language_pattern : String) (s : List Char)
    (p : Nat) : RegVerdict :=
  let n := s.length
  if n < p then
    { regBaseResult s p with error := some (lengthError n p) }
  else
    regSearch language_pattern s p (_generate_regular_decompositions s p) none

/-! ## CFL-path engine (`apply_cfl_pumping_lemma`) -/

/-- One iteration record of the CFL path: `{i, pumped_string, in_language,
parts: {u, v, w, x, y, v_repetitions, x_repetitions}}`. -/
structure CflIteration where
  i : Nat
  pumped_string : List Char
  in_language : Bool
  u : List Char
  v : List Char
  w : List Char
  x : List Char
  y : List Char
  v_repetitions : Nat
  x_repetitions : Nat
deriving DecidableEq, Repr

/-- The result dictionary of `apply_cfl_pumping_lemma`. -/
structure CflVerdict where
  string : List Char
  pumping_length : Nat
  decomposition : Option CflDecomp
  iterations : List CflIteration
  lemma_holds : Bool
  language_type : String
  error : Option String
deriving DecidableEq, Repr

/-- Pumped string `u + v*i + w + x*i + y`. -/
def cflPumped (u v w x y : List Char) (i : Nat) : List Char :=
  u ++ pyRepeat v i ++ w ++ pyRepeat x i ++ y

/-- The iteration records the CFL engine builds for one candidate
decomposition: the fixed repetition counts `[0, 1, 2, 3]`. -/
def cflIterations (language_pattern : String) (u v w x y : List Char) :
    List CflIteration :=
  [0, 1, 2, 3].map fun i =>
    let pumped_string := cflPumped u v w x y i
    { i := i, pumped_string := pumped_string,
      in_language := is_string_in_language pumped_string language_pattern,
      u := u, v := v, w := w, x := x, y := y,
      v_repetitions := i, x_repetitions := i }

/-- Flag `valid_for_all_i` for a CFL candidate. -/
def cflPass (language_pattern : String) (d : CflDecomp) : Bool :=
  (cflIterations language_pattern d.u d.v d.w d.x d.y).all (·.in_language)

/-- The result dictionary as initialized at the top of
`apply_cfl_pumping_lemma`. -/
def cflBaseResult (s : List Char) (p : Nat) : CflVerdict :=
  { string := s, pumping_length := p, decomposition := none, iterations := [],
    lemma_holds := false, language_type := "Unknown", error := none }

/-- The result written when a CFL candidate passes every repetition. -/
def cflSuccessVerdict (language_pattern : String) (s : List Char) (p : Nat)
    (d : CflDecomp) : CflVerdict :=
  { cflBaseResult s p with
    decomposition := some d,
    iterations := cflIterations language_pattern d.u d.v d.w d.x d.y,
    lemma_holds := true, language_type := "Possibly Context-Free" }

/-- The fallback result memorized at the first failing CFL candidate. -/
def cflFailVerdict (language_pattern : String) (s : List Char) (p : Nat)
    (d : CflDecomp) : CflVerdict :=
  { cflBaseResult s p with
    decomposition := some d,
    iterations := cflIterations language_pattern d.u d.v d.w d.x d.y,
    lemma_holds := false, language_type := "Not Context-Free" }

/-- The `for decomp in decompositions` loop of `apply_cfl_pumping_lemma`. -/
def cflSearch (language_pattern : String) (s : List Char) (p : Nat) :
    List CflDecomp → Option (CflDecomp × List CflIteration) → CflVerdict
  | [], none => cflBaseResult s p
  | [], some (d, its) =>
    { cflBaseResult s p with
      decomposition := some d, iterations := its,
      lemma_holds := false, language_type := "Not Context-Free" }
  | d :: rest, fallback =>
    let its := cflIterations language_pattern d.u d.v d.w d.x d.y
    if its.all (·.in_language) then
      { cflBaseResult s p with
      decomposition := some d, iterations := its,
        lemma_holds := true, language_type := "Possibly Context-Free" }
    else
      cflSearch language_pattern s p rest (some (fallback.getD (d, its)))

/-- Embedding of `apply_cfl_pumping_lemma(language_pattern, input_string, p)` from
src/pumping_engine.py. -/
def apply_cfl_pumping_lemma (language_pattern : String) (s : List Char)
    (p : Nat) : CflVerdict :=
  let n := s.length
  if n < p then
    { cflBaseResult s p with error := some (lengthError n p) }
  else
    cflSearch language_pattern s p (_generate_cfl_decompositions s p) none

/-- Decidable check that `s` has the shape `a^k b^k` for some `k ≥ 1`
(used to state the language-shape claims about pattern `"a^n b^n"`). -/
def anbnShape (s : List Char) : Bool :=
  s.length % 2 == 0 && 1 ≤ s.length / 2 &&
    s == List.replicate (s.length / 2) 'a' ++ List.replicate (s.length / 2) 'b'

end VisualPumping

namespace VisualPumping

/-! ## Helper lemmas about list splitting -/

lemma take_append_drop_take {α : Type} (a b : Nat) (l : List α) (h : a ≤ b) :
    l.take a ++ (l.take b).drop a = l.take b := by
  have h1 : l.take a = (l.take b).take a := by
    rw [List.take_take, min_eq_left h]
  rw [h1, List.take_append_drop]

/-! ## Regular decomposition generator: invariants (claim C4 support) -/

lemma mem_generate_regular {s : List Char} {p : Nat} {d : RegDecomp}
    (hd : d ∈ _generate_regular_decompositions s p) :
    d.x ++ d.y ++ d.z = s ∧ 0 < d.y.length ∧ d.x.length + d.y.length ≤ p := by
  simp only [_generate_regular_decompositions, List.mem_flatMap,
    List.mem_filterMap, List.mem_range'_1] at hd
  obtain ⟨sp, ⟨hsp1, hsp2⟩, yl, ⟨hyl1, hyl2⟩, hif⟩ := hd
  by_cases hc : 0 < ((s.take sp).drop (sp - yl)).length ∧
      (s.take (sp - yl) ++ (s.take sp).drop (sp - yl)).length ≤ p
  · rw [if_pos hc] at hif
    cases hif
    refine ⟨?_, hc.1, ?_⟩
    · rw [take_append_drop_take (sp - yl) sp s (Nat.sub_le sp yl),
        List.take_append_drop]
    · have := hc.2
      rwa [List.length_append] at this
  · rw [if_neg hc] at hif
    cases hif

lemma generate_regular_empty {s : List Char} {p : Nat} (h : p = 0 ∨ s = []) :
    _generate_regular_decompositions s p = [] := by
  rcases h with h | h <;> subst h <;>
    simp [_generate_regular_decompositions]

/-! ## CFL decomposition generator: invariants (claim C5 support) -/

lemma mem_cflFull {s : List Char} {p : Nat} {d : CflDecomp}
    (hd : d ∈ cflFullDecompositions s p) :
    d.u ++ d.v ++ d.w ++ d.x ++ d.y = s ∧ 0 < d.v.length + d.x.length ∧
      d.v.length + d.w.length + d.x.length ≤ p := by
  simp only [cflFullDecompositions, List.mem_flatMap, List.mem_filterMap,
    List.mem_range'_1, List.mem_range] at hd
  obtain ⟨st, hst, en, ⟨hen1, hen2⟩, ve, ⟨hve1, hve2⟩, xs, ⟨hxs1, hxs2⟩, hif⟩ := hd
  set vwx : List Char := (s.take en).drop st with hvwx
  have hlen_en : en ≤ s.length := by omega
  have hlen_vwx : vwx.length = en - st := by
    rw [hvwx, List.length_drop, List.length_take]
    omega
  have hxs3 : xs < vwx.length := by omega
  have hve3 : ve < vwx.length := by omega
  by_cases hc : 0 < (vwx.take ve ++ vwx.drop xs).length
  · rw [if_pos hc] at hif
    cases hif
    have hlv : (vwx.take ve).length = ve := by
      rw [List.length_take]; omega
    have hlw : ((vwx.take xs).drop ve).length = xs - ve := by
      rw [List.length_drop, List.length_take]; omega
    have hlx : (vwx.drop xs).length = vwx.length - xs := by
      rw [List.length_drop]
    refine ⟨?_, ?_, ?_⟩
    · have hv : vwx.take ve ++ (vwx.take xs).drop ve = vwx.take xs :=
        take_append_drop_take ve xs vwx (by omega)
      have hvx : vwx.take xs ++ vwx.drop xs = vwx := List.take_append_drop xs vwx
      have hu : s.take st ++ vwx = s.take en :=
        take_append_drop_take st en s (by omega)
      calc s.take st ++ vwx.take ve ++ (vwx.take xs).drop ve ++ vwx.drop xs ++
            s.drop en
          = s.take st ++ (vwx.take ve ++ (vwx.take xs).drop ve) ++ vwx.drop xs ++
            s.drop en := by simp [List.append_assoc]
        _ = s.take st ++ (vwx.take xs ++ vwx.drop xs) ++ s.drop en := by
            rw [hv]; simp [List.append_assoc]
        _ = (s.take st ++ vwx) ++ s.drop en := by rw [hvx]
        _ = s.take en ++ s.drop en := by rw [hu]
        _ = s := List.take_append_drop en s
    · rw [hlv, hlx]; omega
    · rw [hlv, hlw, hlx]; omega
  · rw [if_neg hc] at hif
    cases hif

lemma mem_generate_cfl {s : List Char} {p : Nat} {d : CflDecomp}
    (hd : d ∈ _generate_cfl_decompositions s p) :
    d.u ++ d.v ++ d.w ++ d.x ++ d.y = s ∧ 0 < d.v.length + d.x.length ∧
      d.v.length + d.w.length + d.x.length ≤ p :=
  mem_cflFull ((List.take_sublist 10 (cflFullDecompositions s p)).mem hd)

end VisualPumping

namespace VisualPumping

/-! ## Search-loop characterization (claims C1, C2, C10 support) -/

lemma regSearch_some (language_pattern : String) (s : List Char) (p : Nat)
    (d0 : RegDecomp) :
    ∀ ds : List RegDecomp,
      regSearch language_pattern s p ds
          (some (d0, regIterations language_pattern d0.x d0.y d0.z)) =
        match ds.find? (regPass language_pattern) with
        | some d => regSuccessVerdict language_pattern s p d
        | none => regFailVerdict language_pattern s p d0
  | [] => by
    simp only [List.find?_nil, regSearch, regFailVerdict]
  | d :: rest => by
    by_cases h : regPass language_pattern d = true
    · rw [List.find?_cons_of_pos rest h]
      simp only [regSearch, regPass] at h ⊢
      rw [if_pos h]
      rfl
    · rw [List.find?_cons_of_neg rest h]
      have ih := regSearch_some language_pattern s p d0 rest
      simp only [regSearch, regPass] at h ih ⊢
      rw [if_neg h, Option.getD_some]
      exact ih

lemma regSearch_none (language_pattern : String) (s : List Char) (p : Nat) :
    ∀ ds : List RegDecomp,
      regSearch language_pattern s p ds none =
        match ds.find? (regPass language_pattern) with
        | some d => regSuccessVerdict language_pattern s p d
        | none =>
          match ds with
          | [] => regBaseResult s p
          | d0 :: _ => regFailVerdict language_pattern s p d0
  | [] => by
    simp only [List.find?_nil, regSearch]
  | d :: rest => by
    by_cases h : regPass language_pattern d = true
    · rw [List.find?_cons_of_pos rest h]
      simp only [regSearch, regPass] at h ⊢
      rw [if_pos h]
      rfl
    · rw [List.find?_cons_of_neg rest h]
      have key := regSearch_some language_pattern s p d rest
      simp only [regSearch, regPass] at h key ⊢
      rw [if_neg h, Option.getD_none]
      exact key

lemma cflSearch_some (language_pattern : String) (s : List Char) (p : Nat)
    (d0 : CflDecomp) :
    ∀ ds : List CflDecomp,
      cflSearch language_pattern s p ds
          (some (d0, cflIterations language_pattern d0.u d0.v d0.w d0.x d0.y)) =
        match ds.find? (cflPass language_pattern) with
        | some d => cflSuccessVerdict language_pattern s p d
        | none => cflFailVerdict language_pattern s p d0
  | [] => by
    simp only [List.find?_nil, cflSearch, cflFailVerdict]
  | d :: rest => by
    by_cases h : cflPass language_pattern d = true
    · rw [List.find?_cons_of_pos rest h]
      simp only [cflSearch, cflPass] at h ⊢
      rw [if_pos h]
      rfl
    · rw [List.find?_cons_of_neg rest h]
      have ih := cflSearch_some language_pattern s p d0 rest
      simp only [cflSearch, cflPass] at h ih ⊢
      rw [if_neg h, Option.getD_some]
      exact ih

lemma cflSearch_none (language_pattern : String) (s : List Char) (p : Nat) :
    ∀ ds : List CflDecomp,
      cflSearch language_pattern s p ds none =
        match ds.find? (cflPass language_pattern) with
        | some d => cflSuccessVerdict language_pattern s p d
        | none =>
          match ds with
          | [] => cflBaseResult s p
          | d0 :: _ => cflFailVerdict language_pattern s p d0
  | [] => by
    simp only [List.find?_nil, cflSearch]
  | d :: rest => by
    by_cases h : cflPass language_pattern d = true
    · rw [List.find?_cons_of_pos rest h]
      simp only [cflSearch, cflPass] at h ⊢
      rw [if_pos h]
      rfl
    · rw [List.find?_cons_of_neg rest h]
      have key := cflSearch_some language_pattern s p d rest
      simp only [cflSearch, cflPass] at h key ⊢
      rw [if_neg h, Option.getD_none]
      exact key

lemma apply_regular_of_ge (language_pattern : String) (s : List Char) (p : Nat)
    (hp : ¬ s.length < p) :
    apply_regular_pumping_lemma language_pattern s p =
      regSearch language_pattern s p (_generate_regular_decompositions s p)
        none := by
  simp only [apply_regular_pumping_lemma, if_neg hp]

lemma apply_cfl_of_ge (language_pattern : String) (s : List Char) (p : Nat)
    (hp : ¬ s.length < p) :
    apply_cfl_pumping_lemma language_pattern s p =
      cflSearch language_pattern s p (_generate_cfl_decompositions s p)
        none := by
  simp only [apply_cfl_pumping_lemma, if_neg hp]

end VisualPumping

namespace VisualPumping

/-- Every verdict of the regular engine at `|s| ≥ p` is the degenerate base
result, the success verdict of a generated candidate that passes, or the
fallback verdict of a generated candidate that fails. -/
lemma reg_apply_cases (language_pattern : String) (s : List Char) (p : Nat)
    (hp : ¬ s.length < p) :
    apply_regular_pumping_lemma language_pattern s p = regBaseResult s p ∨
      (∃ d ∈ _generate_regular_decompositions s p,
        regPass language_pattern d = true ∧
          apply_regular_pumping_lemma language_pattern s p =
            regSuccessVerdict language_pattern s p d) ∨
      (∃ d ∈ _generate_regular_decompositions s p,
        regPass language_pattern d = false ∧
          apply_regular_pumping_lemma language_pattern s p =
            regFailVerdict language_pattern s p d) := by
  rw [apply_regular_of_ge language_pattern s p hp,
    regSearch_none language_pattern s p]
  rcases hfind : (_generate_regular_decompositions s p).find?
      (regPass language_pattern) with _ | d
  · rcases hds : _generate_regular_decompositions s p with _ | ⟨d0, rest⟩
    · left; rfl
    · right; right
      refine ⟨d0, List.mem_cons_self d0 rest, ?_, rfl⟩
      have := List.find?_eq_none.mp (hds ▸ hfind) d0 (List.mem_cons_self d0 rest)
      simpa using this
  · right; left
    exact ⟨d, List.mem_of_find?_eq_some hfind, List.find?_some hfind, rfl⟩

/-- CFL analogue of `reg_apply_cases`. -/
lemma cfl_apply_cases (language_pattern : String) (s : List Char) (p : Nat)
    (hp : ¬ s.length < p) :
    apply_cfl_pumping_lemma language_pattern s p = cflBaseResult s p ∨
      (∃ d ∈ _generate_cfl_decompositions s p,
        cflPass language_pattern d = true ∧
          apply_cfl_pumping_lemma language_pattern s p =
            cflSuccessVerdict language_pattern s p d) ∨
      (∃ d ∈ _generate_cfl_decompositions s p,
        cflPass language_pattern d = false ∧
          apply_cfl_pumping_lemma language_pattern s p =
            cflFailVerdict language_pattern s p d) := by
  rw [apply_cfl_of_ge language_pattern s p hp,
    cflSearch_none language_pattern s p]
  rcases hfind : (_generate_cfl_decompositions s p).find?
      (cflPass language_pattern) with _ | d
  · rcases hds : _generate_cfl_decompositions s p with _ | ⟨d0, rest⟩
    · left; rfl
    · right; right
      refine ⟨d0, List.mem_cons_self d0 rest, ?_, rfl⟩
      have := List.find?_eq_none.mp (hds ▸ hfind) d0 (List.mem_cons_self d0 rest)
      simpa using this
  · right; left
    exact ⟨d, List.mem_of_find?_eq_some hfind, List.find?_some hfind, rfl⟩

/-! ## Iteration-record lemmas -/

lemma regIterations_ne_nil (language_pattern : String) (x y z : List Char) :
    regIterations language_pattern x y z ≠ [] := by
  simp [regIterations]

lemma cflIterations_ne_nil (language_pattern : String) (u v w x y : List Char) :
    cflIterations language_pattern u v w x y ≠ [] := by
  simp [cflIterations]

lemma regPumped_one (x y z : List Char) : regPumped x y z 1 = x ++ y ++ z := by
  simp [regPumped, pyRepeat]

lemma cflPumped_one (u v w x y : List Char) :
    cflPumped u v w x y 1 = u ++ v ++ w ++ x ++ y := by
  simp [cflPumped, pyRepeat]

lemma regIterations_i_one {language_pattern : String} {x y z : List Char}
    {r : RegIteration} (hr : r ∈ regIterations language_pattern x y z)
    (hi : r.i = 1) : r.pumped_string = x ++ y ++ z := by
  simp only [regIterations, List.mem_map] at hr
  obtain ⟨i, hmem, rfl⟩ := hr
  simp only at hi
  subst hi
  exact regPumped_one x y z

lemma cflIterations_i_one {language_pattern : String} {u v w x y : List Char}
    {r : CflIteration} (hr : r ∈ cflIterations language_pattern u v w x y)
    (hi : r.i = 1) : r.pumped_string = u ++ v ++ w ++ x ++ y := by
  simp only [cflIterations, List.mem_map] at hr
  obtain ⟨i, hmem, rfl⟩ := hr
  simp only at hi
  subst hi
  exact cflPumped_one u v w x y

lemma regIterations_exists_one (language_pattern : String) (x y z : List Char) :
    ∃ r ∈ regIterations language_pattern x y z,
      r.i = 1 ∧ r.pumped_string = x ++ y ++ z := by
  refine ⟨⟨1, regPumped x y z 1,
    is_string_in_language (regPumped x y z 1) language_pattern, x, y, z, 1⟩,
    ?_, rfl, regPumped_one x y z⟩
  simp [regIterations]

lemma cflIterations_exists_one (language_pattern : String)
    (u v w x y : List Char) :
    ∃ r ∈ cflIterations language_pattern u v w x y,
      r.i = 1 ∧ r.pumped_string = u ++ v ++ w ++ x ++ y := by
  refine ⟨⟨1, cflPumped u v w x y 1,
    is_string_in_language (cflPumped u v w x y 1) language_pattern,
    u, v, w, x, y, 1, 1⟩, ?_, rfl, cflPumped_one u v w x y⟩
  simp [cflIterations]

end VisualPumping

namespace VisualPumping

/-! ## Language-shape lemmas for pattern "a^n b^n" (claim C6 support) -/

lemma hasBA_cons_a (l : List Char) : hasBA ('a' :: l) = hasBA l := by
  cases l with
  | nil => rfl
  | cons c t => simp [hasBA]

lemma hasBA_replicate_a_append (i : Nat) (l : List Char) :
    hasBA (List.replicate i 'a' ++ l) = hasBA l := by
  induction i with
  | zero => rfl
  | succ n ih => rw [List.replicate_succ, List.cons_append, hasBA_cons_a, ih]

lemma hasBA_replicate_b (j : Nat) : hasBA (List.replicate j 'b') = false := by
  induction j with
  | zero => rfl
  | succ n ih =>
    cases n with
    | zero => rfl
    | succ m =>
      rw [List.replicate_succ]
      rw [List.replicate_succ] at ih ⊢
      simp [hasBA] at ih ⊢
      exact ih

/-- Over the alphabet `{a, b}`, a string without the substring "ba" is a run
of `'a'`s followed by a run of `'b'`s. -/
lemma noBA_shape : ∀ s : List Char, (∀ c ∈ s, c = 'a' ∨ c = 'b') →
    hasBA s = false →
    ∃ i j, s = List.replicate i 'a' ++ List.replicate j 'b'
  | [], _, _ => ⟨0, 0, rfl⟩
  | c :: t, halpha, hba => by
    have ht : ∀ c ∈ t, c = 'a' ∨ c = 'b' := fun d hd =>
      halpha d (List.mem_cons_of_mem c hd)
    rcases halpha c (List.mem_cons_self c t) with rfl | rfl
    · have hbat : hasBA t = false := by rwa [hasBA_cons_a] at hba
      obtain ⟨i, j, rfl⟩ := noBA_shape t ht hbat
      exact ⟨i + 1, j, by rw [List.replicate_succ]; rfl⟩
    · have hbat : hasBA t = false := by
        cases t with
        | nil => rfl
        | cons d u =>
          simp [hasBA] at hba
          exact hba.2
      obtain ⟨i, j, hshape⟩ := noBA_shape t ht hbat
      cases i with
      | zero =>
        refine ⟨0, j + 1, ?_⟩
        rw [hshape]
        simp [List.replicate_succ]
      | succ m =>
        exfalso
        rw [List.replicate_succ] at hshape
        subst hshape
        simp [hasBA] at hba

lemma count_replicate_run (i j : Nat) :
    (List.replicate i 'a' ++ List.replicate j 'b').count 'a' = i ∧
      (List.replicate i 'a' ++ List.replicate j 'b').count 'b' = j := by
  constructor <;> simp [List.count_append, List.count_replicate]

/-- The check `anbnShape` decides the shape `a^k b^k`, `k ≥ 1`. -/
lemma anbnShape_iff (s : List Char) :
    anbnShape s = true ↔
      ∃ k, 1 ≤ k ∧ s = List.replicate k 'a' ++ List.replicate k 'b' := by
  constructor
  · intro h
    simp only [anbnShape, Bool.and_eq_true, beq_iff_eq, decide_eq_true_eq] at h
    exact ⟨s.length / 2, h.1.2, h.2⟩
  · rintro ⟨k, hk, rfl⟩
    have hlen : (List.replicate k 'a' ++ List.replicate k 'b').length = k + k := by
      simp
    simp only [anbnShape, Bool.and_eq_true, beq_iff_eq, decide_eq_true_eq, hlen]
    refine ⟨⟨by omega, by omega⟩, ?_⟩
    have : (k + k) / 2 = k := by omega
    rw [this]

end VisualPumping

namespace VisualPumping

/-! ## Language-shape lemmas for pattern "a^n b^n c^n" (claim C7 support) -/

lemma takeWhile_replicate_append (c : Char) (n : Nat) (rest : List Char)
    (h : ∀ d, rest.head? = some d → (d == c) = false) :
    (List.replicate n c ++ rest).takeWhile (· == c) = List.replicate n c := by
  induction n with
  | zero =>
    cases rest with
    | nil => rfl
    | cons d t =>
      simp only [List.replicate_zero, List.nil_append]
      rw [List.takeWhile_cons_of_neg]
      simp [h d rfl]
  | succ m ih =>
    rw [List.replicate_succ, List.cons_append, List.takeWhile_cons_of_pos (by simp)]
    rw [ih]

lemma dropWhile_replicate_append (c : Char) (n : Nat) (rest : List Char)
    (h : ∀ d, rest.head? = some d → (d == c) = false) :
    (List.replicate n c ++ rest).dropWhile (· == c) = rest := by
  induction n with
  | zero =>
    cases rest with
    | nil => rfl
    | cons d t =>
      simp only [List.replicate_zero, List.nil_append]
      rw [List.dropWhile_cons_of_neg]
      simp [h d rfl]
  | succ m ih =>
    rw [List.replicate_succ, List.cons_append, List.dropWhile_cons_of_pos (by simp)]
    rw [ih]

lemma anbncnCheck_iff (s : List Char) :
    anbncnCheck s = true ↔
      ∃ n, 1 ≤ n ∧ s = List.replicate n 'a' ++ List.replicate n 'b' ++
        List.replicate n 'c' := by
  constructor
  · intro h
    rw [anbncnCheck] at h
    split at h
    case isTrue hcond =>
      exact ⟨(s.takeWhile (· == 'a')).length, hcond.1, by
        simpa using eq_of_beq h⟩
    case isFalse hcond => cases h
  · rintro ⟨n, hn, rfl⟩
    obtain ⟨m, rfl⟩ : ∃ m, n = m + 1 := ⟨n - 1, by omega⟩
    have hbc : ∀ d : Char,
        (List.replicate (m + 1) 'b' ++ List.replicate (m + 1) 'c').head? =
          some d → (d == 'a') = false := by
      intro d hd
      rw [List.replicate_succ, List.cons_append] at hd
      simp only [List.head?_cons, Option.some.injEq] at hd
      subst hd
      decide
    have hc : ∀ d : Char, (List.replicate (m + 1) 'c').head? = some d →
        (d == 'b') = false := by
      intro d hd
      rw [List.replicate_succ] at hd
      simp only [List.head?_cons, Option.some.injEq] at hd
      subst hd
      decide
    have hnil : ∀ d : Char, ([] : List Char).head? = some d →
        (d == 'c') = false := by
      intro d hd
      cases hd
    have e1 : ((List.replicate (m + 1) 'a' ++ List.replicate (m + 1) 'b' ++
        List.replicate (m + 1) 'c').takeWhile (· == 'a')) =
          List.replicate (m + 1) 'a' := by
      rw [List.append_assoc]
      exact takeWhile_replicate_append 'a' (m + 1) _ hbc
    have e2 : ((List.replicate (m + 1) 'a' ++ List.replicate (m + 1) 'b' ++
        List.replicate (m + 1) 'c').dropWhile (· == 'a')) =
          List.replicate (m + 1) 'b' ++ List.replicate (m + 1) 'c' := by
      rw [List.append_assoc]
      exact dropWhile_replicate_append 'a' (m + 1) _ hbc
    have e3 : ((List.replicate (m + 1) 'b' ++
        List.replicate (m + 1) 'c').takeWhile (· == 'b')) =
          List.replicate (m + 1) 'b' :=
      takeWhile_replicate_append 'b' (m + 1) _ hc
    have e4 : ((List.replicate (m + 1) 'b' ++
        List.replicate (m + 1) 'c').dropWhile (· == 'b')) =
          List.replicate (m + 1) 'c' :=
      dropWhile_replicate_append 'b' (m + 1) _ hc
    have e5 : ((List.replicate (m + 1) 'c').takeWhile (· == 'c')) =
        List.replicate (m + 1) 'c' := by
      have := takeWhile_replicate_append 'c' (m + 1) [] hnil
      simp only [List.append_nil] at this
      exact this
    have e6 : ((List.replicate (m + 1) 'c').dropWhile (· == 'c')) =
        ([] : List Char) := by
      have := dropWhile_replicate_append 'c' (m + 1) [] hnil
      simp only [List.append_nil] at this
      exact this
    rw [anbncnCheck]
    simp only [e1, e2, e3, e4, e5, e6, List.length_replicate]
    rw [if_pos ⟨by omega, by omega, by omega, trivial⟩]
    exact beq_self_eq_true _

end VisualPumping
  

namespace VisualPumping

lemma lengthError_ne_empty (n p : Nat) : lengthError n p ≠ "" := by
  intro h
  have h2 := congrArg String.length h
  simp [lengthError, String.length_append] at h2
  exact absurd h2.1.1.1.1 (by decide)

/-! ## Claim theorems -/

/-- C1: for `|s| ≥ p`, both engines visit the generated candidates in
generator order and return the success verdict (lemma_holds = true,
"Possibly Regular"/"Possibly Context-Free") of the *first* candidate all of
whose pumped strings are members; when no candidate passes, they return the
fallback verdict (lemma_holds = false, "Not Regular"/"Not Context-Free")
built from the first candidate examined; with no candidates at all the base
result is returned. -/
theorem C1_engine_first_success_or_first_failure (language_pattern : String)
    (s : List Char) (p : Nat) (hp : p ≤ s.length) :
    (apply_regular_pumping_lemma language_pattern s p =
      match (_generate_regular_decompositions s p).find?
          (regPass language_pattern) with
      | some d => regSuccessVerdict language_pattern s p d
      | none =>
        match _generate_regular_decompositions s p with
        | [] => regBaseResult s p
        | d0 :: _ => regFailVerdict language_pattern s p d0) ∧
    (apply_cfl_pumping_lemma language_pattern s p =
      match (_generate_cfl_decompositions s p).find?
          (cflPass language_pattern) with
      | some d => cflSuccessVerdict language_pattern s p d
      | none =>
        match _generate_cfl_decompositions s p with
        | [] => cflBaseResult s p
        | d0 :: _ => cflFailVerdict language_pattern s p d0) := by
  have hp' : ¬ s.length < p := Nat.not_lt.mpr hp
  constructor
  · rw [apply_regular_of_ge language_pattern s p hp']
    exact regSearch_none language_pattern s p _
  · rw [apply_cfl_of_ge language_pattern s p hp']
    exact cflSearch_none language_pattern s p _

/-- Witness for C1 at `pattern = "(ab)*"`, `s = "abab"`, `p = 2`. -/
theorem C1_witness :
    apply_regular_pumping_lemma "(ab)*" ['a', 'b', 'a', 'b'] 2 =
      match (_generate_regular_decompositions ['a', 'b', 'a', 'b'] 2).find?
          (regPass "(ab)*") with
      | some d => regSuccessVerdict "(ab)*" ['a', 'b', 'a', 'b'] 2 d
      | none =>
        match _generate_regular_decompositions ['a', 'b', 'a', 'b'] 2 with
        | [] => regBaseResult ['a', 'b', 'a', 'b'] 2
        | d0 :: _ => regFailVerdict "(ab)*" ['a', 'b', 'a', 'b'] 2 d0 :=
  (C1_engine_first_success_or_first_failure "(ab)*" ['a', 'b', 'a', 'b'] 2
    (by decide)).1

/-- C2 counterexample: at `pattern = "(ab)*"`, `s = "a"`, `p = 0` the
returned verdict has an empty iteration sequence (so every record in it is
vacuously a member) yet `lemma_holds = false`, refuting the biconditional
as stated. -/
theorem C2_counterexample :
    ¬ (( apply_regular_pumping_lemma "(ab)*" ['a'] 0).lemma_holds = true ↔
      ∀ r ∈ ( apply_regular_pumping_lemma "(ab)*" ['a'] 0).iterations,
        r.in_language = true) := by
  decide

/-- C2 (amended): for every pattern, string and `p`, `lemma_holds = true`
iff the iteration sequence is non-empty *and* every record in it is a
member — for both engines and every returned verdict, including the error
and degenerate (empty-iterations) ones. -/
theorem C2_amended_lemma_holds_iff (language_pattern : String) (s : List Char)
    (p : Nat) :
    ((apply_regular_pumping_lemma language_pattern s p).lemma_holds = true ↔
      (apply_regular_pumping_lemma language_pattern s p).iterations ≠ [] ∧
        ∀ r ∈ (apply_regular_pumping_lemma language_pattern s p).iterations,
          r.in_language = true) ∧
    ((apply_cfl_pumping_lemma language_pattern s p).lemma_holds = true ↔
      (apply_cfl_pumping_lemma language_pattern s p).iterations ≠ [] ∧
        ∀ r ∈ (apply_cfl_pumping_lemma language_pattern s p).iterations,
          r.in_language = true) := by
  constructor
  · by_cases hp : s.length < p
    · rw [apply_regular_pumping_lemma, if_pos hp]
      simp [regBaseResult]
    · rcases reg_apply_cases language_pattern s p hp with h | ⟨d, _, hd, h⟩ | ⟨d, _, hd, h⟩
      · rw [h]; simp [regBaseResult]
      · rw [h]
        simp only [regSuccessVerdict, regBaseResult]
        have := List.all_eq_true.mp hd
        constructor
        · intro _
          exact ⟨regIterations_ne_nil language_pattern d.x d.y d.z, this⟩
        · intro _; trivial
      · rw [h]
        simp only [regFailVerdict, regBaseResult]
        constructor
        · intro hfalse; cases hfalse
        · rintro ⟨-, hall⟩
          exact absurd (List.all_eq_true.mpr hall) (by simp [regPass] at hd; simp [hd])
  · by_cases hp : s.length < p
    · rw [apply_cfl_pumping_lemma, if_pos hp]
      simp [cflBaseResult]
    · rcases cfl_apply_cases language_pattern s p hp with h | ⟨d, _, hd, h⟩ | ⟨d, _, hd, h⟩
      · rw [h]; simp [cflBaseResult]
      · rw [h]
        simp only [cflSuccessVerdict, cflBaseResult]
        have := List.all_eq_true.mp hd
        constructor
        · intro _
          exact ⟨cflIterations_ne_nil language_pattern d.u d.v d.w d.x d.y, this⟩
        · intro _; trivial
      · rw [h]
        simp only [cflFailVerdict, cflBaseResult]
        constructor
        · intro hfalse; cases hfalse
        · rintro ⟨-, hall⟩
          exact absurd (List.all_eq_true.mpr hall) (by simp [cflPass] at hd; simp [hd])

end VisualPumping

namespace VisualPumping

/-- C3: when `|s| < p`, both engines return (they are total functions, so
they never raise) a verdict with a non-empty error field, empty iterations,
an empty decomposition, `lemma_holds = false` and language type
"Unknown". -/
theorem C3_short_string_error (language_pattern : String) (s : List Char)
    (p : Nat) (h : s.length < p) :
    ((∃ m, (apply_regular_pumping_lemma language_pattern s p).error = some m ∧
        m ≠ "") ∧
      (apply_regular_pumping_lemma language_pattern s p).iterations = [] ∧
      (apply_regular_pumping_lemma language_pattern s p).decomposition = none ∧
      (apply_regular_pumping_lemma language_pattern s p).lemma_holds = false ∧
      (apply_regular_pumping_lemma language_pattern s p).language_type =
        "Unknown") ∧
    ((∃ m, (apply_cfl_pumping_lemma language_pattern s p).error = some m ∧
        m ≠ "") ∧
      (apply_cfl_pumping_lemma language_pattern s p).iterations = [] ∧
      (apply_cfl_pumping_lemma language_pattern s p).decomposition = none ∧
      (apply_cfl_pumping_lemma language_pattern s p).lemma_holds = false ∧
      (apply_cfl_pumping_lemma language_pattern s p).language_type =
        "Unknown") := by
  rw [apply_regular_pumping_lemma, apply_cfl_pumping_lemma]
  rw [if_pos h, if_pos h]
  exact ⟨⟨⟨lengthError s.length p, rfl, lengthError_ne_empty s.length p⟩,
      rfl, rfl, rfl, rfl⟩,
    ⟨⟨lengthError s.length p, rfl, lengthError_ne_empty s.length p⟩,
      rfl, rfl, rfl, rfl⟩⟩

/-- Witness for C3 at `pattern = "(ab)*"`, `s = "a"`, `p = 5`. -/
theorem C3_witness :
    ((∃ m, ( apply_regular_pumping_lemma "(ab)*" ['a'] 5).error = some m ∧
        m ≠ "") ∧
      ( apply_regular_pumping_lemma "(ab)*" ['a'] 5).iterations = [] ∧
      ( apply_regular_pumping_lemma "(ab)*" ['a'] 5).decomposition = none ∧
      ( apply_regular_pumping_lemma "(ab)*" ['a'] 5).lemma_holds = false ∧
      ( apply_regular_pumping_lemma "(ab)*" ['a'] 5).language_type =
        "Unknown") ∧
    ((∃ m, ( apply_cfl_pumping_lemma "(ab)*" ['a'] 5).error = some m ∧
        m ≠ "") ∧
      ( apply_cfl_pumping_lemma "(ab)*" ['a'] 5).iterations = [] ∧
      ( apply_cfl_pumping_lemma "(ab)*" ['a'] 5).decomposition = none ∧
      ( apply_cfl_pumping_lemma "(ab)*" ['a'] 5).lemma_holds = false ∧
      ( apply_cfl_pumping_lemma "(ab)*" ['a'] 5).language_type = "Unknown") :=
  C3_short_string_error "(ab)*" ['a'] 5 (by decide)

/-- C4: every decomposition produced by the regular generator reassembles to
`s`, has non-empty `y` and satisfies `|x| + |y| ≤ p`; the generator returns
the empty sequence when `p = 0` or `s` is empty. -/
theorem C4_regular_generator_invariant (s : List Char) (p : Nat) :
    (∀ d ∈ _generate_regular_decompositions s p,
      d.x ++ d.y ++ d.z = s ∧ 0 < d.y.length ∧
        d.x.length + d.y.length ≤ p) ∧
    (p = 0 ∨ s = [] → _generate_regular_decompositions s p = []) :=
  ⟨fun _ hd => mem_generate_regular hd, generate_regular_empty⟩

/-- Witness for C4 at `s = "ab"`, `p = 2` and the generator's first
decomposition. -/
theorem C4_witness :
    (⟨[], ['a'], ['b'], "|xy| = 1, |y| = 1"⟩ : RegDecomp).x ++
        (⟨[], ['a'], ['b'], "|xy| = 1, |y| = 1"⟩ : RegDecomp).y ++
        (⟨[], ['a'], ['b'], "|xy| = 1, |y| = 1"⟩ : RegDecomp).z = ['a', 'b'] ∧
      0 < (⟨[], ['a'], ['b'], "|xy| = 1, |y| = 1"⟩ : RegDecomp).y.length ∧
      (⟨[], ['a'], ['b'], "|xy| = 1, |y| = 1"⟩ : RegDecomp).x.length +
        (⟨[], ['a'], ['b'], "|xy| = 1, |y| = 1"⟩ : RegDecomp).y.length ≤ 2 :=
  (C4_regular_generator_invariant ['a', 'b'] 2).1
    ⟨[], ['a'], ['b'], "|xy| = 1, |y| = 1"⟩ (by decide)

/-- C5: every decomposition produced by the CFL generator reassembles to
`s`, has `|v| + |x| > 0` and `|v| + |w| + |x| ≤ p`; the returned sequence
has at most 10 elements and is exactly the 10-element prefix of the full
canonical enumeration. -/
theorem C5_cfl_generator_invariant (s : List Char) (p : Nat) :
    (∀ d ∈ _generate_cfl_decompositions s p,
      d.u ++ d.v ++ d.w ++ d.x ++ d.y = s ∧ 0 < d.v.length + d.x.length ∧
        d.v.length + d.w.length + d.x.length ≤ p) ∧
    (_generate_cfl_decompositions s p).length ≤ 10 ∧
    _generate_cfl_decompositions s p = (cflFullDecompositions s p).take 10 :=
  ⟨fun _ hd => mem_generate_cfl hd,
    List.length_take_le 10 (cflFullDecompositions s p), rfl⟩

/-- Witness for C5 at `s = "ab"`, `p = 2` and the generator's only
decomposition. -/
theorem C5_witness :
    (⟨[], ['a'], [], ['b'], [], "|vwx| = 2, |vx| = 2"⟩ : CflDecomp).u ++
        (⟨[], ['a'], [], ['b'], [], "|vwx| = 2, |vx| = 2"⟩ : CflDecomp).v ++
        (⟨[], ['a'], [], ['b'], [], "|vwx| = 2, |vx| = 2"⟩ : CflDecomp).w ++
        (⟨[], ['a'], [], ['b'], [], "|vwx| = 2, |vx| = 2"⟩ : CflDecomp).x ++
        (⟨[], ['a'], [], ['b'], [], "|vwx| = 2, |vx| = 2"⟩ : CflDecomp).y =
        ['a', 'b'] ∧
      0 < (⟨[], ['a'], [], ['b'], [], "|vwx| = 2, |vx| = 2"⟩ : CflDecomp).v.length +
        (⟨[], ['a'], [], ['b'], [], "|vwx| = 2, |vx| = 2"⟩ : CflDecomp).x.length ∧
      (⟨[], ['a'], [], ['b'], [], "|vwx| = 2, |vx| = 2"⟩ : CflDecomp).v.length +
        (⟨[], ['a'], [], ['b'], [], "|vwx| = 2, |vx| = 2"⟩ : CflDecomp).w.length +
        (⟨[], ['a'], [], ['b'], [], "|vwx| = 2, |vx| = 2"⟩ : CflDecomp).x.length ≤ 2 :=
  (C5_cfl_generator_invariant ['a', 'b'] 2).1
    ⟨[], ['a'], [], ['b'], [], "|vwx| = 2, |vx| = 2"⟩ (by decide)

end VisualPumping

namespace VisualPumping

/-- C6 counterexample: over the alphabet `{a, b, c}` the stated equivalence
fails — `"acb"` satisfies the oracle's four checks (starts with 'a', ends
with 'b', equal counts of 'a' and 'b', no "ba" substring) and is accepted,
yet it is not of the shape `a^k b^k`. -/
theorem C6_counterexample :
    ¬ (is_string_in_language ['a', 'c', 'b'] "a^n b^n" = true ↔
      ∃ k, 1 ≤ k ∧ ['a', 'c', 'b'] =
        List.replicate k 'a' ++ List.replicate k 'b') := by
  intro h
  have h2 := h.mp (by decide)
  rw [← anbnShape_iff] at h2
  exact absurd h2 (by decide)

/-- C6 (amended): for every string, membership in pattern `"a^n b^n"` is
exactly the conjunction of the four coded checks; the equivalence with the
shape `a^k b^k` (`k ≥ 1`) holds for strings over the alphabet `{a, b}`
(it fails over `{a, b, c}`, see the counterexample); the empty string is
not a member. -/
theorem C6_amended_anbn_membership (s : List Char) :
    (is_string_in_language s "a^n b^n" = true ↔
      s.head? = some 'a' ∧ s.getLast? = some 'b' ∧
        s.count 'a' = s.count 'b' ∧ hasBA s = false) ∧
    ((∀ c ∈ s, c = 'a' ∨ c = 'b') →
      (is_string_in_language s "a^n b^n" = true ↔
        ∃ k, 1 ≤ k ∧ s = List.replicate k 'a' ++ List.replicate k 'b')) ∧
    is_string_in_language [] "a^n b^n" = false := by
  have part1 : is_string_in_language s "a^n b^n" = true ↔
      s.head? = some 'a' ∧ s.getLast? = some 'b' ∧
        s.count 'a' = s.count 'b' ∧ hasBA s = false := by
    simp [is_string_in_language, and_assoc, Bool.not_eq_true']
  refine ⟨part1, ?_, by decide⟩
  intro halpha
  rw [part1]
  constructor
  · rintro ⟨hhead, hlast, hcount, hba⟩
    obtain ⟨i, j, rfl⟩ := noBA_shape s halpha hba
    have hcnt := count_replicate_run i j
    rw [hcnt.1, hcnt.2] at hcount
    subst hcount
    cases i with
    | zero =>
      exfalso
      cases hhead
    | succ m =>
      exact ⟨m + 1, by omega, rfl⟩
  · rintro ⟨k, hk, rfl⟩
    obtain ⟨m, rfl⟩ : ∃ m, k = m + 1 := ⟨k - 1, by omega⟩
    refine ⟨?_, ?_, ?_, ?_⟩
    · rw [List.replicate_succ]
      rfl
    · rw [show List.replicate (m + 1) 'a' ++ List.replicate (m + 1) 'b' =
          (List.replicate (m + 1) 'a' ++ List.replicate m 'b') ++ ['b'] by
        rw [List.replicate_succ' m 'b', List.append_assoc]]
      exact List.getLast?_concat _
    · have hcnt := count_replicate_run (m + 1) (m + 1)
      rw [hcnt.1, hcnt.2]
    · rw [hasBA_replicate_a_append, hasBA_replicate_b]

/-- Witness for C6 at `s = "ab"` (a string over `{a, b}`). -/
theorem C6_witness :
    is_string_in_language ['a', 'b'] "a^n b^n" = true ↔
      ∃ k, 1 ≤ k ∧ ['a', 'b'] =
        List.replicate k 'a' ++ List.replicate k 'b' :=
  (C6_amended_anbn_membership ['a', 'b']).2.1 (by decide)

end VisualPumping

namespace VisualPumping

/-- C7: membership in pattern `"a^n b^n c^n"` holds exactly for the strings
`a^n b^n c^n` with `n ≥ 1`; in particular the empty string is not a
member. -/
theorem C7_anbncn_membership (s : List Char) :
    (is_string_in_language s "a^n b^n c^n" = true ↔
      ∃ n, 1 ≤ n ∧ s = List.replicate n 'a' ++ List.replicate n 'b' ++
        List.replicate n 'c') ∧
    is_string_in_language [] "a^n b^n c^n" = false := by
  refine ⟨?_, by decide⟩
  have hbranch : is_string_in_language s "a^n b^n c^n" = anbncnCheck s := by
    simp [is_string_in_language]
  rw [hbranch]
  exact anbncnCheck_iff s

/-- Witness for C7 at `s = "abc"`. -/
theorem C7_witness :
    is_string_in_language ['a', 'b', 'c'] "a^n b^n c^n" = true ↔
      ∃ n, 1 ≤ n ∧ ['a', 'b', 'c'] =
        List.replicate n 'a' ++ List.replicate n 'b' ++ List.replicate n 'c' :=
  (C7_anbncn_membership ['a', 'b', 'c']).1

/-- C8: the membership oracle is a total function (in this embedding it is a
Lean function, hence total and deterministic by construction, and it cannot
raise), and for every pattern identifier outside the fixed supported set it
returns `false` on every string. -/
theorem C8_unknown_pattern_false (s : List Char) (language_pattern : String)
    (h : language_pattern ∉ (["a^n b^n", "a^n b^m", "a*b*", "(ab)*",
      "a^n b^n c^n", "ww", "w w_reverse", "(b*ab*ab*)*"] : List String)) :
    is_string_in_language s language_pattern = false := by
  simp only [List.mem_cons, List.not_mem_nil, or_false, not_or] at h
  obtain ⟨h1, h2, h3, h4, h5, h6, h7, h8⟩ := h
  simp [is_string_in_language, h1, h2, h3, h4, h5, h6, h7, h8]

/-- Witness for C8 at the unsupported pattern `"a^n"` and `s = "a"`. -/
theorem C8_witness : is_string_in_language ['a'] "a^n" = false :=
  C8_unknown_pattern_false ['a'] "a^n" (by decide)

/-- C9: on `pattern = "(ab)*"`, `s = "abab"`, `p = 2` the regular engine
succeeds with decomposition `x = ""`, `y = "ab"`, `z = "ab"` and all five
iteration records (i = 0, 1, 2, 3, 5) members. -/
theorem C9_abab_scenario :
    ( apply_regular_pumping_lemma "(ab)*" ['a', 'b', 'a', 'b'] 2).lemma_holds =
        true ∧
      ( apply_regular_pumping_lemma "(ab)*" ['a', 'b', 'a', 'b'] 2).language_type =
        "Possibly Regular" ∧
      ( apply_regular_pumping_lemma "(ab)*" ['a', 'b', 'a', 'b'] 2).decomposition =
        some ⟨[], ['a', 'b'], ['a', 'b'], "|xy| = 2, |y| = 2"⟩ ∧
      ( apply_regular_pumping_lemma "(ab)*" ['a', 'b', 'a', 'b'] 2).iterations.map
          (fun r => (r.i, r.in_language)) =
        [(0, true), (1, true), (2, true), (3, true), (5, true)] := by
  decide

/-- C10: for `|s| ≥ p`, in any verdict of either engine every iteration
record with repetition count `i = 1` carries the original string as its
pumped string, and whenever the iteration sequence is non-empty such a
record exists. -/
theorem C10_pump_once_identity (language_pattern : String) (s : List Char)
    (p : Nat) (hp : p ≤ s.length) :
    ((∀ r ∈ (apply_regular_pumping_lemma language_pattern s p).iterations,
        r.i = 1 → r.pumped_string = s) ∧
      ((apply_regular_pumping_lemma language_pattern s p).iterations ≠ [] →
        ∃ r ∈ (apply_regular_pumping_lemma language_pattern s p).iterations,
          r.i = 1 ∧ r.pumped_string = s)) ∧
    ((∀ r ∈ (apply_cfl_pumping_lemma language_pattern s p).iterations,
        r.i = 1 → r.pumped_string = s) ∧
      ((apply_cfl_pumping_lemma language_pattern s p).iterations ≠ [] →
        ∃ r ∈ (apply_cfl_pumping_lemma language_pattern s p).iterations,
          r.i = 1 ∧ r.pumped_string = s)) := by
  have hp' : ¬ s.length < p := Nat.not_lt.mpr hp
  constructor
  · have hcases := reg_apply_cases language_pattern s p hp'
    rcases hcases with h | ⟨d, hdmem, -, h⟩ | ⟨d, hdmem, -, h⟩ <;> rw [h]
    · exact ⟨fun r hr => absurd hr (by simp [regBaseResult]),
        fun hne => absurd rfl hne⟩
    all_goals {
      have hsum := (mem_generate_regular hdmem).1
      refine ⟨fun r hr hi => ?_, fun _ => ?_⟩
      · rw [regIterations_i_one hr hi]
        exact hsum
      · obtain ⟨r, hr, hi, hpump⟩ :=
          regIterations_exists_one language_pattern d.x d.y d.z
        exact ⟨r, hr, hi, by rw [hpump]; exact hsum⟩
    }
  · have hcases := cfl_apply_cases language_pattern s p hp'
    rcases hcases with h | ⟨d, hdmem, -, h⟩ | ⟨d, hdmem, -, h⟩ <;> rw [h]
    · exact ⟨fun r hr => absurd hr (by simp [cflBaseResult]),
        fun hne => absurd rfl hne⟩
    all_goals {
      have hsum := (mem_generate_cfl hdmem).1
      refine ⟨fun r hr hi => ?_, fun _ => ?_⟩
      · rw [cflIterations_i_one hr hi]
        exact hsum
      · obtain ⟨r, hr, hi, hpump⟩ :=
          cflIterations_exists_one language_pattern d.u d.v d.w d.x d.y
        exact ⟨r, hr, hi, by rw [hpump]; exact hsum⟩
    }

/-- Witness for C10 at `pattern = "(ab)*"`, `s = "abab"`, `p = 2`. -/
theorem C10_witness :
    ∃ r ∈ ( apply_regular_pumping_lemma "(ab)*" ['a', 'b', 'a', 'b'] 2).iterations,
      r.i = 1 ∧ r.pumped_string = ['a', 'b', 'a', 'b'] :=
  (C10_pump_once_identity "(ab)*" ['a', 'b', 'a', 'b'] 2 (by decide)).1.2
    (by decide)

end VisualPumping
